import Mathlib

/-!
Verification of `scripts/xivapi_calls.py` (FFXIV-Crafter-Solver).

The script fetches recipe and buff data from XIVAPI, transforms each raw
record into the solver's format, and persists the results as sorted JSON
files.  The definitions below are a shallow embedding of that script:

* numbers are embedded exactly (`ℤ` for integer fields, `ℚ` for the
  factor fields that Python holds as numbers and combines with `/` and
  `math.floor`);
* Python `None` / missing JSON keys become `Option.none`;
* a Python dict whose keys are dynamic (the buff variants, where keys are
  deleted by a `v is not None` filter) is embedded as an association list
  `List (String × PyVal)`;
* the thread scheduling of `handle_api_calls` is embedded as the trace of
  `start`/`join-all` events the loop performs, in program order.
-/

namespace Xivapi

/-- Locale-indexed name mapping (`LocaleNames` TypedDict). For recipes the
script always fills all four languages. -/
structure LocaleNames where
  en : String
  de : String
  fr : String
  ja : String
  deriving DecidableEq

/-- The `RecipeLevelTable` sub-object of a raw XIVAPI recipe record
(`RecipeJSONLevelTableType`). `Difficulty` is declared `int | float` in the
script, so it is embedded as `ℚ`. -/
structure RecipeJSONLevelTable where
  ClassJobLevel : ℤ
  Stars : ℤ
  ID : ℤ
  Difficulty : ℚ
  Durability : ℤ
  Quality : ℤ
  SuggestedCraftsmanship : ℤ
  SuggestedControl : ℤ
  ProgressDivider : ℤ
  ProgressModifier : ℤ
  QualityDivider : ℤ
  QualityModifier : ℤ
  deriving DecidableEq

/-- A raw recipe record as returned by XIVAPI (`RecipeJSONType`).  The
factor fields are declared `float` in the script and take part in the
`math.floor(base * factor / 100)` computations, so they are embedded as
`ℚ`; `RecipeLevelTable` may be `null`. Of the `ClassJob` object only the
`NameEnglish` field is used by the script (as grouping key). -/
structure RecipeJSON where
  ID : ℤ
  Name_en : String
  Name_de : String
  Name_fr : String
  Name_ja : String
  ClassJob_NameEnglish : String
  DurabilityFactor : ℚ
  QualityFactor : ℚ
  DifficultyFactor : ℚ
  RequiredControl : ℤ
  RequiredCraftsmanship : ℤ
  RecipeLevelTable : Option RecipeJSONLevelTable
  deriving DecidableEq

/-- A normalized recipe in the solver's format (`RecipeType`).  `stars` is
a `NotRequired` key in the script; `Option.none` means the key is absent. -/
structure RecipeType where
  id : ℤ
  name : LocaleNames
  baseLevel : ℤ
  level : ℤ
  difficulty : ℤ
  durability : ℤ
  maxQuality : ℤ
  suggestedCraftsmanship : ℤ
  suggestedControl : ℤ
  progressDivider : ℤ
  progressModifier : ℤ
  qualityDivider : ℤ
  qualityModifier : ℤ
  stars : Option ℤ
  deriving DecidableEq

/-- Embedding of `construct_recipe_json`: returns `none` when the
`RecipeLevelTable` is `null`, otherwise builds the normalized recipe.
`math.floor(a * b / 100)` on exact values is `⌊a * b / 100⌋`. -/
def construct_recipe_json (original_recipe : RecipeJSON) : Option RecipeType :=
  match original_recipe.RecipeLevelTable with
  | Option.none => Option.none
  | Option.some lt =>
      Option.some
        { id := original_recipe.ID
          name := { en := original_recipe.Name_en
                    de := original_recipe.Name_de
                    fr := original_recipe.Name_fr
                    ja := original_recipe.Name_ja }
          baseLevel := lt.ClassJobLevel
          level := lt.ID
          difficulty := ⌊lt.Difficulty * original_recipe.DifficultyFactor / 100⌋
          durability := ⌊(lt.Durability : ℚ) * original_recipe.DurabilityFactor / 100⌋
          maxQuality := ⌊(lt.Quality : ℚ) * original_recipe.QualityFactor / 100⌋
          suggestedCraftsmanship := lt.SuggestedCraftsmanship
          suggestedControl := lt.SuggestedControl
          progressDivider := lt.ProgressDivider
          progressModifier := lt.ProgressModifier
          qualityDivider := lt.QualityDivider
          qualityModifier := lt.QualityModifier
          stars := if lt.Stars ≠ 0 then Option.some lt.Stars else Option.none }

/-- A convenient fully concrete raw record used by witnesses: level-table
base values `Difficulty = 99`, `Durability = 80`, `Quality = 1000`,
`Stars = 3`, and factors `101 / 100 / 100`. -/
def sampleLevelTable : RecipeJSONLevelTable :=
  { ClassJobLevel := 80, Stars := 3, ID := 430, Difficulty := 99,
    Durability := 80, Quality := 1000, SuggestedCraftsmanship := 2140,
    SuggestedControl := 1990, ProgressDivider := 110, ProgressModifier := 90,
    QualityDivider := 90, QualityModifier := 80 }

/-- A concrete raw recipe record around `sampleLevelTable`. -/
def sampleRecipe : RecipeJSON :=
  { ID := 35, Name_en := "Bronze Ingot", Name_de := "Bronzebarren",
    Name_fr := "Lingot de bronze", Name_ja := "ブロンズインゴット",
    ClassJob_NameEnglish := "Blacksmith",
    DurabilityFactor := 100, QualityFactor := 100, DifficultyFactor := 101,
    RequiredControl := 0, RequiredCraftsmanship := 0,
    RecipeLevelTable := Option.some sampleLevelTable }

/-- C1: for a record with a present level-table, each scaled stat is the
exact integer floor of `base * factor / 100`. -/
theorem construct_recipe_json_floor_fields (r : RecipeJSON)
    (lt : RecipeJSONLevelTable) (h : r.RecipeLevelTable = Option.some lt) :
    ∃ c, construct_recipe_json r = Option.some c ∧
      c.difficulty = ⌊lt.Difficulty * r.DifficultyFactor / 100⌋ ∧
      c.durability = ⌊(lt.Durability : ℚ) * r.DurabilityFactor / 100⌋ ∧
      c.maxQuality = ⌊(lt.Quality : ℚ) * r.QualityFactor / 100⌋ := by
  unfold construct_recipe_json
  rw [h]
  exact ⟨_, rfl, rfl, rfl, rfl⟩

/-- C1 witness: evaluating the transform on `sampleRecipe`
(`base = 99`, `factor = 101`) gives `⌊99.99⌋ = 99`. -/
theorem construct_recipe_json_floor_fields_witness :
    (∃ c, construct_recipe_json sampleRecipe = Option.some c ∧
      c.difficulty = ⌊sampleLevelTable.Difficulty * sampleRecipe.DifficultyFactor / 100⌋ ∧
      c.durability = ⌊(sampleLevelTable.Durability : ℚ) * sampleRecipe.DurabilityFactor / 100⌋ ∧
      c.maxQuality = ⌊(sampleLevelTable.Quality : ℚ) * sampleRecipe.QualityFactor / 100⌋) ∧
    ⌊sampleLevelTable.Difficulty * sampleRecipe.DifficultyFactor / 100⌋ = (99 : ℤ) := by
  refine ⟨construct_recipe_json_floor_fields sampleRecipe sampleLevelTable rfl, ?_⟩
  show ⌊(99 : ℚ) * 101 / 100⌋ = (99 : ℤ)
  norm_num

/-- C7: the `stars` key is present in the output iff the source level
table's `Stars` value is nonzero, and when present it equals it. -/
theorem construct_recipe_json_stars (r : RecipeJSON)
    (lt : RecipeJSONLevelTable) (h : r.RecipeLevelTable = Option.some lt) :
    ∃ c, construct_recipe_json r = Option.some c ∧
      (c.stars ≠ Option.none ↔ lt.Stars ≠ 0) ∧
      (∀ s, c.stars = Option.some s → s = lt.Stars) := by
  unfold construct_recipe_json
  rw [h]
  refine ⟨_, rfl, ?_, ?_⟩
  · show (if lt.Stars ≠ 0 then Option.some lt.Stars else Option.none) ≠ Option.none ↔ _
    by_cases hs : lt.Stars = 0 <;> simp [hs]
  · intro s hs
    by_cases h0 : lt.Stars = 0 <;> simp [h0] at hs
    exact hs.symm

/-- C7 witness: `sampleLevelTable` has `Stars = 3 ≠ 0`, so the output has
the star rating `3`. -/
theorem construct_recipe_json_stars_witness :
    (∃ c, construct_recipe_json sampleRecipe = Option.some c ∧
      (c.stars ≠ Option.none ↔ sampleLevelTable.Stars ≠ 0) ∧
      (∀ s, c.stars = Option.some s → s = sampleLevelTable.Stars)) ∧
    sampleLevelTable.Stars = 3 :=
  ⟨construct_recipe_json_stars sampleRecipe sampleLevelTable rfl, rfl⟩

/-!
The page-fetch worker `api_call`.  It GETs one page, prints a warning when
the response status is 429, then iterates `page_data["Results"]`, appending
`(class-job key, constructed recipe)` to the shared mapping for every
record whose transform is truthy (a non-`None` dict).  The embedding keeps
the parsed response as data: `results = Option.none` models a body without
a `Results` key (the iteration then raises inside the worker thread, so
the page appends nothing and the other workers and the main thread are
unaffected).
-/

/-- A parsed HTTP response for one recipe page, as `api_call` sees it. -/
structure ApiResponse where
  status_code : ℤ
  results : Option (List RecipeJSON)
  deriving DecidableEq

/-- Whether `api_call` prints its rate-limit warning for this response. -/
def api_call_logs_429 (r : ApiResponse) : Bool :=
  r.status_code == 429

/-- The sequence of `recipes[key].append(...)` operations `api_call`
performs for this response, or `Option.none` when the body has no
`Results` key (a `KeyError` in the worker, which then appends nothing). -/
def api_call_appends (r : ApiResponse) : Option (List (String × RecipeType)) :=
  match r.results with
  | Option.none => Option.none
  | Option.some rs =>
      Option.some (rs.filterMap fun rec =>
        (construct_recipe_json rec).map fun c => (rec.ClassJob_NameEnglish, c))

/-- The records a page actually contributes to the run: a worker whose
iteration raised contributes nothing, and its exception does not abort
the other workers or the main thread. -/
def page_contribution (r : ApiResponse) : List (String × RecipeType) :=
  (api_call_appends r).getD []

/-- All append operations of a whole run, page by page in order; each
page is fetched exactly once (no retry). -/
def run_pages (rs : List ApiResponse) : List (String × RecipeType) :=
  rs.flatMap page_contribution

/-- C2: a raw record whose level-table is `null` yields no output record,
and `api_call` appends nothing to the accumulating mapping for it: the
appends of a page containing it equal those of the page without it. -/
theorem construct_recipe_json_none_dropped (r : RecipeJSON)
    (h : r.RecipeLevelTable = Option.none) :
    construct_recipe_json r = Option.none ∧
    ∀ (s : ℤ) (l₁ l₂ : List RecipeJSON),
      api_call_appends ⟨s, Option.some (l₁ ++ r :: l₂)⟩ =
        api_call_appends ⟨s, Option.some (l₁ ++ l₂)⟩ := by
  have hnone : construct_recipe_json r = Option.none := by
    unfold construct_recipe_json
    rw [h]
  refine ⟨hnone, fun s l₁ l₂ => ?_⟩
  simp [api_call_appends, List.filterMap_append, hnone]

/-- C2 witness: a concrete record with a `null` level-table is dropped and
contributes no append operation on a concrete page. -/
theorem construct_recipe_json_none_dropped_witness :
    let bad : RecipeJSON :=
      { ID := 7, Name_en := "a", Name_de := "b", Name_fr := "c", Name_ja := "d",
        ClassJob_NameEnglish := "Carpenter",
        DurabilityFactor := 100, QualityFactor := 100, DifficultyFactor := 100,
        RequiredControl := 0, RequiredCraftsmanship := 0,
        RecipeLevelTable := Option.none }
    construct_recipe_json bad = Option.none ∧
    api_call_appends ⟨200, Option.some ([] ++ bad :: [sampleRecipe])⟩ =
      api_call_appends ⟨200, Option.some ([] ++ [sampleRecipe])⟩ := by
  intro bad
  exact ⟨(construct_recipe_json_none_dropped bad rfl).1,
    (construct_recipe_json_none_dropped bad rfl).2 200 [] [sampleRecipe]⟩

/-- C4: on a 429 response (whose body, as XIVAPI sends it, carries no
`Results` key) the warning is logged, the page contributes no records,
and the rest of the run is unaffected: the run over the other pages is
exactly the run without this page, each page fetched once (no retry). -/
theorem api_call_rate_limited (r : ApiResponse)
    (h429 : r.status_code = 429) (hbody : r.results = Option.none) :
    api_call_logs_429 r = true ∧
    page_contribution r = [] ∧
    ∀ pre post : List ApiResponse,
      run_pages (pre ++ r :: post) = run_pages pre ++ run_pages post := by
  refine ⟨?_, ?_, fun pre post => ?_⟩
  · simp [api_call_logs_429, h429]
  · simp [page_contribution, api_call_appends, hbody]
  · simp [run_pages, page_contribution, api_call_appends, hbody]

/-- C4 witness: a concrete 429 response with no `Results` key is logged
and contributes nothing, while a surrounding run is otherwise intact. -/
theorem api_call_rate_limited_witness :
    api_call_logs_429 ⟨429, Option.none⟩ = true ∧
    page_contribution ⟨429, Option.none⟩ = [] ∧
    run_pages ([⟨200, Option.some [sampleRecipe]⟩] ++
        (⟨429, Option.none⟩ : ApiResponse) :: [⟨200, Option.some []⟩]) =
      run_pages [⟨200, Option.some [sampleRecipe]⟩] ++
        run_pages [⟨200, Option.some []⟩] :=
  ⟨(api_call_rate_limited ⟨429, Option.none⟩ rfl rfl).1,
    (api_call_rate_limited ⟨429, Option.none⟩ rfl rfl).2.1,
    (api_call_rate_limited ⟨429, Option.none⟩ rfl rfl).2.2
      [⟨200, Option.some [sampleRecipe]⟩] [⟨200, Option.some []⟩]⟩

/-!
Pagination discovery `get_total_pages`: one GET of the recipe endpoint,
then `int(recipe_data["Pagination"]["PageTotal"])` is returned.  The
embedding returns the number of requests issued together with the value.
-/

/-- The `Pagination` metadata of the recipe endpoint response. -/
structure PaginationResponse where
  PageTotal : ℤ
  deriving DecidableEq

/-- Embedding of `get_total_pages`: `(requests issued, value returned)`. -/
def get_total_pages (resp : PaginationResponse) : ℕ × ℤ :=
  (1, resp.PageTotal)

/-- C9 counterexample: the function performs no positivity check, so a
metadata response reporting `PageTotal = 0` is returned as `0`, which is
not strictly positive. -/
theorem get_total_pages_zero_counterexample :
    ¬ 0 < (get_total_pages ⟨0⟩).2 := by
  decide

/-- C9 (amended): one request is issued and the returned value is exactly
the reported `PageTotal`; it is strictly positive whenever the upstream
value is. -/
theorem get_total_pages_passthrough (resp : PaginationResponse)
    (h : 0 < resp.PageTotal) :
    (get_total_pages resp).1 = 1 ∧
    (get_total_pages resp).2 = resp.PageTotal ∧
    0 < (get_total_pages resp).2 :=
  ⟨rfl, rfl, h⟩

/-- C9 witness: a metadata response reporting 94 pages yields 94. -/
theorem get_total_pages_passthrough_witness :
    (get_total_pages ⟨94⟩).1 = 1 ∧
    (get_total_pages ⟨94⟩).2 = (94 : ℤ) ∧
    0 < (get_total_pages ⟨94⟩).2 :=
  get_total_pages_passthrough ⟨94⟩ (by decide)

/-!
The buff extraction `extract_buff_data`.  For every item of the search
result it builds, for `hq` in `[False, True]`, a dict

  `{id, cp_percent, cp_value, craft_percent, craft_value, control_percent,
    control_value, hq, name}`

whose bonus entries come from `item.get("Bonuses", {}).get(...).get(...)`
(each is `None` when absent), and then removes the keys whose value is
`None` via `{k: v for k, v in new_item.items() if v is not None}`.  The
dict is embedded as an association list of Python values so that "key
absent" and "key present with value None" stay distinguishable.
-/

/-- A Python value as it appears inside a buff variant dict. -/
inductive PyVal : Type
  | none : PyVal
  | int : ℤ → PyVal
  | str : String → PyVal
  | bool : Bool → PyVal
  | obj : List (String × PyVal) → PyVal

/-- Whether a value is the Python `None` (`v is None`). -/
def PyVal.isNone : PyVal → Bool
  | PyVal.none => true
  | _ => false

/-- One bonus entry of the raw item (`Bonuses.CP` etc.); each field may
be absent. -/
structure BonusEntry where
  Value : Option ℤ
  Max : Option ℤ

/-- The `Bonuses` object of the raw item; each bonus may be absent. -/
structure BonusesObj where
  CP : Option BonusEntry
  Craftsmanship : Option BonusEntry
  Control : Option BonusEntry

/-- A raw buff item from the search response; every requested column may
be absent (`item.get` then yields `None`). -/
structure RawBuffItem where
  ID : Option ℤ
  Bonuses : Option BonusesObj
  Name_en : Option String
  Name_de : Option String
  Name_fr : Option String
  Name_ja : Option String

/-- An absent integer becomes Python `None`. -/
def optInt : Option ℤ → PyVal
  | Option.none => PyVal.none
  | Option.some i => PyVal.int i

/-- An absent string becomes Python `None`. -/
def optStr : Option String → PyVal
  | Option.none => PyVal.none
  | Option.some s => PyVal.str s

/-- Embedding of `item.get("Bonuses", {}).get("CP", {})`. -/
def cpOf (item : RawBuffItem) : BonusEntry :=
  ((item.Bonuses.getD ⟨Option.none, Option.none, Option.none⟩).CP).getD
    ⟨Option.none, Option.none⟩

/-- Embedding of `item.get("Bonuses", {}).get("Craftsmanship", {})`. -/
def craftOf (item : RawBuffItem) : BonusEntry :=
  ((item.Bonuses.getD ⟨Option.none, Option.none, Option.none⟩).Craftsmanship).getD
    ⟨Option.none, Option.none⟩

/-- Embedding of `item.get("Bonuses", {}).get("Control", {})`. -/
def controlOf (item : RawBuffItem) : BonusEntry :=
  ((item.Bonuses.getD ⟨Option.none, Option.none, Option.none⟩).Control).getD
    ⟨Option.none, Option.none⟩

/-- The `new_item` dict built for one item and one `hq` flag, before the
`None` filter, in the source's key order. -/
def new_item (item : RawBuffItem) (hq : Bool) : List (String × PyVal) :=
  [("id", optInt item.ID),
   ("cp_percent", optInt (cpOf item).Value),
   ("cp_value", optInt (cpOf item).Max),
   ("craft_percent", optInt (craftOf item).Value),
   ("craft_value", optInt (craftOf item).Max),
   ("control_percent", optInt (controlOf item).Value),
   ("control_value", optInt (controlOf item).Max),
   ("hq", PyVal.bool hq),
   ("name", PyVal.obj
     [("en", optStr item.Name_en), ("de", optStr item.Name_de),
      ("fr", optStr item.Name_fr), ("ja", optStr item.Name_ja)])]

/-- The emitted variant: the `new_item` dict with the top-level keys whose
value is `None` removed. -/
def buff_variant (item : RawBuffItem) (hq : Bool) : List (String × PyVal) :=
  (new_item item hq).filter fun p => ! p.2.isNone

/-- Embedding of `extract_buff_data` on the parsed search results: two
variants per item, NQ first. -/
def extract_buff_data (items : List RawBuffItem) : List (List (String × PyVal)) :=
  items.flatMap fun item => [buff_variant item false, buff_variant item true]

/-- Lookup never finds a key that is not among a list's keys. -/
theorem lookup_eq_none_of_not_mem_keys (k : String) :
    ∀ l : List (String × PyVal), k ∉ l.map Prod.fst → l.lookup k = Option.none := by
  intro l
  induction l with
  | nil => intro _; rfl
  | cons p t ih =>
      intro hk
      obtain ⟨a, v⟩ := p
      have ha : k ≠ a := by
        intro h
        exact hk (by simp [h])
      have hb : (k == a) = false := by simpa using ha
      simp only [List.lookup_cons, hb]
      refine ih fun h => hk ?_
      simp only [List.map_cons, List.mem_cons]
      exact Or.inr h

/-- Looking a key up after the `None` filter: on a dict with distinct
keys, the key is found iff its original value was not `None`. -/
theorem lookup_filter_isNone (k : String) :
    ∀ l : List (String × PyVal), (l.map Prod.fst).Nodup →
      (l.filter fun p => ! p.2.isNone).lookup k =
        (l.lookup k).bind
          (fun v => if v.isNone then Option.none else Option.some v) := by
  intro l
  induction l with
  | nil => intro _; rfl
  | cons p t ih =>
      intro hnd
      obtain ⟨a, v⟩ := p
      simp only [List.map_cons, List.nodup_cons] at hnd
      obtain ⟨hnotmem, hnd⟩ := hnd
      by_cases hk : k = a
      · subst hk
        cases hv : v.isNone
        · simp only [List.filter_cons, hv, Bool.not_false, if_true,
            List.lookup_cons, beq_self_eq_true]
          simp [hv]
        · have hnone : (t.filter fun p => ! p.2.isNone).lookup k = Option.none := by
            apply lookup_eq_none_of_not_mem_keys
            intro hmem
            apply hnotmem
            obtain ⟨q, hq1, hq2⟩ := List.mem_map.1 hmem
            exact List.mem_map.2 ⟨q, List.mem_of_mem_filter hq1, hq2⟩
          simp only [List.filter_cons, hv, Bool.not_true, if_false]
          simp only [List.lookup_cons, beq_self_eq_true]
          simp [hv, hnone]
      · have hb : (k == a) = false := by simpa using hk
        cases hv : v.isNone
        · simp only [List.filter_cons, hv, Bool.not_false, if_true,
            List.lookup_cons, hb]
          exact ih hnd
        · simp only [List.filter_cons, hv, Bool.not_true, if_false,
            List.lookup_cons, hb]
          exact ih hnd

/-- The keys of `new_item` are pairwise distinct. -/
theorem new_item_keys_nodup (item : RawBuffItem) (hq : Bool) :
    ((new_item item hq).map Prod.fst).Nodup := by
  show (["id", "cp_percent", "cp_value", "craft_percent", "craft_value",
    "control_percent", "control_value", "hq", "name"] : List String).Nodup
  decide

/-- Lookup in an emitted variant, reduced to lookup in the unfiltered
`new_item` dict. -/
theorem buff_variant_lookup (item : RawBuffItem) (hq : Bool) (k : String) :
    (buff_variant item hq).lookup k =
      ((new_item item hq).lookup k).bind
        (fun v => if v.isNone then Option.none else Option.some v) :=
  lookup_filter_isNone k (new_item item hq) (new_item_keys_nodup item hq)

/-- C3: each source item yields exactly two variants, NQ then HQ, agreeing
on every key other than `hq`; each bonus sub-field key is present exactly
when the source value is, carrying that value (so an absent source
sub-field is an absent key in both variants, never a `None` value). -/
theorem extract_buff_data_hq_pair (item : RawBuffItem) :
    ∃ v₀ v₁,
      extract_buff_data [item] = [v₀, v₁] ∧
      (∀ items : List RawBuffItem,
        (extract_buff_data items).length = 2 * items.length) ∧
      v₀.lookup "hq" = Option.some (PyVal.bool false) ∧
      v₁.lookup "hq" = Option.some (PyVal.bool true) ∧
      (∀ k, k ≠ "hq" → v₀.lookup k = v₁.lookup k) ∧
      v₀.lookup "cp_percent" = Option.map PyVal.int (cpOf item).Value ∧
      v₀.lookup "cp_value" = Option.map PyVal.int (cpOf item).Max ∧
      v₀.lookup "craft_percent" = Option.map PyVal.int (craftOf item).Value ∧
      v₀.lookup "craft_value" = Option.map PyVal.int (craftOf item).Max ∧
      v₀.lookup "control_percent" = Option.map PyVal.int (controlOf item).Value ∧
      v₀.lookup "control_value" = Option.map PyVal.int (controlOf item).Max := by
  refine ⟨buff_variant item false, buff_variant item true, rfl, ?_, ?_, ?_, ?_,
    ?_, ?_, ?_, ?_, ?_, ?_⟩
  · intro items
    induction items with
    | nil => rfl
    | cons x t ih =>
        simp only [extract_buff_data, List.flatMap_cons, List.length_append,
          List.length_cons, List.length_nil] at ih ⊢
        omega
  · rw [buff_variant_lookup]
    rfl
  · rw [buff_variant_lookup]
    rfl
  · intro k hk
    rw [buff_variant_lookup, buff_variant_lookup]
    have hb : (k == "hq") = false := by simpa using hk
    simp only [new_item, List.lookup_cons, hb]
  · rw [buff_variant_lookup]
    show (Option.some (optInt (cpOf item).Value)).bind _ = _
    cases (cpOf item).Value <;> rfl
  · rw [buff_variant_lookup]
    show (Option.some (optInt (cpOf item).Max)).bind _ = _
    cases (cpOf item).Max <;> rfl
  · rw [buff_variant_lookup]
    show (Option.some (optInt (craftOf item).Value)).bind _ = _
    cases (craftOf item).Value <;> rfl
  · rw [buff_variant_lookup]
    show (Option.some (optInt (craftOf item).Max)).bind _ = _
    cases (craftOf item).Max <;> rfl
  · rw [buff_variant_lookup]
    show (Option.some (optInt (controlOf item).Value)).bind _ = _
    cases (controlOf item).Value <;> rfl
  · rw [buff_variant_lookup]
    show (Option.some (optInt (controlOf item).Max)).bind _ = _
    cases (controlOf item).Max <;> rfl

/-- C10: every emitted variant keeps the `hq` key (also for the `False`
value) and keeps the `name` key as a nested mapping that always carries
all four locale keys, a locale absent in the source appearing as a `None`
value inside the mapping rather than being omitted: the `None` filter acts
only on the top-level keys. -/
theorem buff_variant_name_and_hq (item : RawBuffItem) (hq : Bool) :
    buff_variant item hq ∈ extract_buff_data [item] ∧
    (buff_variant item hq).lookup "name" = Option.some (PyVal.obj
      [("en", optStr item.Name_en), ("de", optStr item.Name_de),
       ("fr", optStr item.Name_fr), ("ja", optStr item.Name_ja)]) ∧
    (buff_variant item hq).lookup "hq" = Option.some (PyVal.bool hq) := by
  refine ⟨?_, ?_, ?_⟩
  · have hx : extract_buff_data [item] =
        [buff_variant item false, buff_variant item true] := rfl
    rw [hx]
    cases hq
    · exact List.mem_cons_self _ _
    · exact List.mem_cons_of_mem _ (List.mem_cons_self _ _)
  · rw [buff_variant_lookup]
    rfl
  · rw [buff_variant_lookup]
    rfl

/-- A concrete raw buff item used by witnesses: CP and Control bonuses
present, Craftsmanship absent, French name absent. -/
def sampleBuffItem : RawBuffItem :=
  { ID := Option.some 22689,
    Bonuses := Option.some
      { CP := Option.some { Value := Option.some 14, Max := Option.some 71 },
        Craftsmanship := Option.none,
        Control := Option.some { Value := Option.some 2, Max := Option.some 10 } },
    Name_en := Option.some "Cunning Craftsman Draught",
    Name_de := Option.some "Listiger Handwerker",
    Name_fr := Option.none,
    Name_ja := Option.some "クラフターズドラフト" }

/-- C3 witness: on the concrete item the two emitted variants agree on the
`cp_value` key, instantiating the theorem's per-key agreement at
`k = "cp_value" ≠ "hq"`. -/
theorem extract_buff_data_hq_pair_witness :
    (buff_variant sampleBuffItem false).lookup "cp_value" =
      (buff_variant sampleBuffItem true).lookup "cp_value" := by
  obtain ⟨v₀, v₁, h1, _, _, _, h5, _⟩ := extract_buff_data_hq_pair sampleBuffItem
  have hx : [buff_variant sampleBuffItem false, buff_variant sampleBuffItem true] =
      [v₀, v₁] := h1
  simp only [List.cons.injEq, and_true] at hx
  rw [hx.1, hx.2]
  exact h5 "cp_value" (by decide)

/-!
Recipe persistence `save_data_to_json`.  For every `(class_job, list)`
entry of the mapping it sorts the list by `x["id"]` (Python `sorted`, a
stable sort) and overwrites the file named after the category key with
the serialized sorted list.  The JSON serialization is a deterministic
injective function of the sorted list, so the file system is embedded as
a map from file name to the list it holds.
-/

/-- Python `sorted(class_recipes, key=lambda x: x["id"])`: a stable sort
by `id`; `List.mergeSort` is the same stable sort. -/
def sort_recipes (l : List RecipeType) : List RecipeType :=
  l.mergeSort fun a b => a.id ≤ b.id

/-- Embedding of `save_data_to_json`: the file-system state after the
run, overwriting one file per category key. -/
def save_data_to_json (recipes : List (String × List RecipeType))
    (fs : String → Option (List RecipeType)) : String → Option (List RecipeType) :=
  fun name =>
    match recipes.lookup name with
    | Option.some l => Option.some (sort_recipes l)
    | Option.none => fs name

/-- Two concrete normalized recipes sharing `id = 5`. -/
def dupRecipeA : RecipeType :=
  { id := 5, name := { en := "a", de := "a", fr := "a", ja := "a" },
    baseLevel := 1, level := 1, difficulty := 9, durability := 40,
    maxQuality := 80, suggestedCraftsmanship := 0, suggestedControl := 0,
    progressDivider := 50, progressModifier := 100, qualityDivider := 30,
    qualityModifier := 80, stars := Option.none }

/-- A second concrete recipe with the same `id = 5`. -/
def dupRecipeB : RecipeType :=
  { dupRecipeA with name := { en := "b", de := "b", fr := "b", ja := "b" } }

/-- C5 counterexample: with two records sharing `id = 5` in one category,
the persisted list is not strictly ascending by `id` (sorting is only
nondecreasing), refuting the claim as stated for arbitrary input. -/
theorem save_data_to_json_strict_counterexample :
    (save_data_to_json [("Weaver", [dupRecipeA, dupRecipeB])]
        (fun _ => Option.none) "Weaver").getD [] = [dupRecipeA, dupRecipeB] ∧
    ¬ List.Chain' (fun a b : RecipeType => a.id < b.id)
      ((save_data_to_json [("Weaver", [dupRecipeA, dupRecipeB])]
          (fun _ => Option.none) "Weaver").getD []) := by
  have hsorted : sort_recipes [dupRecipeA, dupRecipeB] = [dupRecipeA, dupRecipeB] := by
    apply List.mergeSort_of_sorted
    refine List.Pairwise.cons ?_ (List.Pairwise.cons (by simp) List.Pairwise.nil)
    intro b hb
    rw [List.mem_singleton.1 hb]
    show (decide (dupRecipeA.id ≤ dupRecipeB.id)) = true
    decide
  have hout : (save_data_to_json [("Weaver", [dupRecipeA, dupRecipeB])]
      (fun _ => Option.none) "Weaver").getD [] = [dupRecipeA, dupRecipeB] := by
    show (Option.some (sort_recipes [dupRecipeA, dupRecipeB])).getD [] = _
    rw [Option.getD_some, hsorted]
  refine ⟨hout, ?_⟩
  rw [hout]
  intro hchain
  have h5 : dupRecipeA.id < dupRecipeB.id := (List.chain'_cons.1 hchain).1
  exact absurd h5 (by decide)

/-- C5 (amended): each category file holds its records sorted ascending
by `id` (strictly whenever the ids are pairwise distinct — recipe ids are
unique in practice), and re-running persistence on the same mapping
leaves the file system byte-identical (the write overwrites). -/
theorem save_data_to_json_sorted (recipes : List (String × List RecipeType))
    (fs : String → Option (List RecipeType)) (key : String)
    (l : List RecipeType) (h : recipes.lookup key = Option.some l) :
    save_data_to_json recipes fs key = Option.some (sort_recipes l) ∧
    (sort_recipes l).Pairwise (fun a b => a.id ≤ b.id) ∧
    ((l.map RecipeType.id).Nodup →
      List.Chain' (fun a b => a.id < b.id) (sort_recipes l)) ∧
    save_data_to_json recipes (save_data_to_json recipes fs) =
      save_data_to_json recipes fs := by
  have hpair : (sort_recipes l).Pairwise (fun a b => a.id ≤ b.id) := by
    have hs := @List.sorted_mergeSort RecipeType
      (fun a b => decide (a.id ≤ b.id))
      (fun a b c hab hbc => by
        simp only [decide_eq_true_eq] at *
        omega)
      (fun a b => by
        simp only [Bool.or_eq_true, decide_eq_true_eq]
        omega) l
    exact hs.imp (by simp only [decide_eq_true_eq]; exact id)
  refine ⟨by simp [save_data_to_json, h], hpair, ?_, ?_⟩
  · intro hnd
    have hperm : (sort_recipes l).Perm l := List.mergeSort_perm l _
    have hnd2 : ((sort_recipes l).map RecipeType.id).Nodup :=
      ((hperm.map RecipeType.id).nodup_iff).2 hnd
    have hne : (sort_recipes l).Pairwise (fun a b => a.id ≠ b.id) :=
      (List.pairwise_map).1 hnd2
    exact (hpair.and hne).imp (fun h => lt_of_le_of_ne h.1 h.2) |>.chain'
  · funext name
    unfold save_data_to_json
    cases hl : recipes.lookup name <;> simp [hl]

/-- C5 witness: a concrete mapping with distinct ids; persistence writes
the sorted file, strictly ascending, and a second run changes nothing. -/
theorem save_data_to_json_sorted_witness :
    save_data_to_json [("Weaver", [dupRecipeA, { dupRecipeA with id := 2 }])]
        (fun _ => Option.none) "Weaver" =
      Option.some (sort_recipes [dupRecipeA, { dupRecipeA with id := 2 }]) ∧
    List.Chain' (fun a b : RecipeType => a.id < b.id)
      (sort_recipes [dupRecipeA, { dupRecipeA with id := 2 }]) ∧
    save_data_to_json [("Weaver", [dupRecipeA, { dupRecipeA with id := 2 }])]
        (save_data_to_json [("Weaver", [dupRecipeA, { dupRecipeA with id := 2 }])]
          (fun _ => Option.none)) =
      save_data_to_json [("Weaver", [dupRecipeA, { dupRecipeA with id := 2 }])]
        (fun _ => Option.none) := by
  have h := save_data_to_json_sorted
    [("Weaver", [dupRecipeA, { dupRecipeA with id := 2 }])]
    (fun _ => Option.none) "Weaver" [dupRecipeA, { dupRecipeA with id := 2 }] rfl
  exact ⟨h.1, h.2.2.1 (by decide), h.2.2.2⟩

/-!
The buff main flow sorts the extracted list with
`sorted(buffs, key=lambda x: (x["id"], x["hq"]))` before persisting it.
The sort key only reads the `id` and `hq` fields, which the script's
`Buffs` TypedDict declares as always-present, so the sorted list is
embedded over structured buff records; Python compares the key tuples
lexicographically with `False < True`.
-/

/-- The locale name mapping of a persisted buff (values may be `null`). -/
structure BuffLocaleNames where
  en : Option String
  de : Option String
  fr : Option String
  ja : Option String
  deriving DecidableEq

/-- A persisted buff record (`Buffs` TypedDict): bonus fields may be
absent, `id`, `hq` and `name` are present. -/
structure Buffs where
  id : ℤ
  cp_percent : Option ℤ
  cp_value : Option ℤ
  craft_percent : Option ℤ
  craft_value : Option ℤ
  control_percent : Option ℤ
  control_value : Option ℤ
  hq : Bool
  name : BuffLocaleNames
  deriving DecidableEq

/-- Lexicographic comparison of the sort keys `(x["id"], x["hq"])`, with
Python's `False < True` on booleans. -/
def buff_key_le (a b : Buffs) : Bool :=
  a.id < b.id || (a.id == b.id && (!a.hq || b.hq))

/-- The main-block sort of the extracted buff list (stable, by key). -/
def sort_buffs (buffs : List Buffs) : List Buffs :=
  buffs.mergeSort buff_key_le

/-- The comparison is transitive. -/
theorem buff_key_le_trans (a b c : Buffs)
    (hab : buff_key_le a b = true) (hbc : buff_key_le b c = true) :
    buff_key_le a c = true := by
  simp only [buff_key_le, Bool.or_eq_true, Bool.and_eq_true,
    decide_eq_true_eq, beq_iff_eq, Bool.not_eq_true'] at *
  rcases hab with h1 | ⟨h1, h2⟩
  · rcases hbc with g1 | ⟨g1, _⟩
    · exact Or.inl (h1.trans g1)
    · exact Or.inl (g1 ▸ h1)
  · rcases hbc with g1 | ⟨g1, g2⟩
    · exact Or.inl (h1 ▸ g1)
    · refine Or.inr ⟨h1.trans g1, ?_⟩
      rcases h2 with h2 | h2
      · exact Or.inl h2
      · rcases g2 with g2 | g2
        · rw [h2] at g2
          cases g2
        · exact Or.inr g2

/-- The comparison is total. -/
theorem buff_key_le_total (a b : Buffs) :
    (buff_key_le a b || buff_key_le b a) = true := by
  simp only [buff_key_le, Bool.or_eq_true, Bool.and_eq_true,
    decide_eq_true_eq, beq_iff_eq, Bool.not_eq_true']
  rcases lt_trichotomy a.id b.id with h | h | h
  · exact Or.inl (Or.inl h)
  · cases ha : a.hq
    · exact Or.inl (Or.inr ⟨h, Or.inl rfl⟩)
    · cases hb : b.hq
      · exact Or.inr (Or.inr ⟨h.symm, Or.inl rfl⟩)
      · exact Or.inl (Or.inr ⟨h, Or.inr rfl⟩)
  · exact Or.inr (Or.inl h)

/-- C6: the persisted buff list is pairwise ascending in the key order
`(id, hq)` with `False < True`; in particular, among entries sharing an
`id`, no `hq = true` variant ever precedes an `hq = false` one. -/
theorem sort_buffs_sorted (buffs : List Buffs) :
    (sort_buffs buffs).Pairwise
      (fun a b => a.id < b.id ∨ (a.id = b.id ∧ (a.hq = true → b.hq = true))) ∧
    (sort_buffs buffs).Pairwise
      (fun a b => a.id = b.id → ¬(a.hq = true ∧ b.hq = false)) := by
  have hs := List.sorted_mergeSort buff_key_le_trans buff_key_le_total buffs
  have hpair : (sort_buffs buffs).Pairwise
      (fun a b => a.id < b.id ∨ (a.id = b.id ∧ (a.hq = true → b.hq = true))) := by
    refine hs.imp ?_
    intro a b hab
    simp only [buff_key_le, Bool.or_eq_true, Bool.and_eq_true,
      decide_eq_true_eq, beq_iff_eq, Bool.not_eq_true'] at hab
    rcases hab with h | ⟨h1, h2⟩
    · exact Or.inl h
    · refine Or.inr ⟨h1, fun ha => ?_⟩
      rcases h2 with h2 | h2
      · rw [ha] at h2
        cases h2
      · exact h2
  refine ⟨hpair, hpair.imp ?_⟩
  intro a b hab heq
  rintro ⟨ha, hb⟩
  rcases hab with h | ⟨_, h⟩
  · rw [heq] at h
    exact lt_irrefl _ h
  · rw [h ha] at hb
    cases hb

/-- A concrete NQ buff record used by the C6 witness. -/
def dupBuff : Buffs :=
  { id := 22689, cp_percent := Option.some 14, cp_value := Option.some 71,
    craft_percent := Option.none, craft_value := Option.none,
    control_percent := Option.some 2, control_value := Option.some 10,
    hq := false,
    name := { en := Option.some "Cunning Craftsman Draught",
              de := Option.none, fr := Option.none, ja := Option.none } }

/-- C6 witness: the theorem instantiated on a concrete two-element list. -/
theorem sort_buffs_sorted_witness :
    (sort_buffs [{ dupBuff with hq := true }, dupBuff]).Pairwise
      (fun a b => a.id < b.id ∨ (a.id = b.id ∧ (a.hq = true → b.hq = true))) ∧
    (sort_buffs [{ dupBuff with hq := true }, dupBuff]).Pairwise
      (fun a b => a.id = b.id → ¬(a.hq = true ∧ b.hq = false)) :=
  sort_buffs_sorted [{ dupBuff with hq := true }, dupBuff]

/-!
Thread scheduling of `handle_api_calls`.  The loop starts one worker
thread per page `i = 1..pages_amount` and, whenever `i % 20 == 0`, joins
every thread started since the previous join before continuing; after the
loop the remaining threads are joined.  The embedding is the trace of
scheduling events the main thread performs, in program order: `start i`
(thread for page `i` started) and `barrier` (all threads started since
the previous barrier joined).
-/

/-- A scheduling event of the main thread. -/
inductive Ev : Type
  | start : ℕ → Ev
  | barrier : Ev
  deriving DecidableEq

/-- The events the loop body emits for the given page numbers. -/
def api_loop : List ℕ → List Ev
  | [] => []
  | i :: rest =>
      Ev.start i :: ((if i % 20 = 0 then [Ev.barrier] else []) ++ api_loop rest)

/-- Embedding of `handle_api_calls`: loop over pages `1..pages_amount`,
then the trailing join of the remaining threads. -/
def handle_api_calls (pages_amount : ℕ) : List Ev :=
  api_loop (List.range' 1 pages_amount) ++ [Ev.barrier]

/-- The page of a start event, if any. -/
def startEvent? : Ev → Option ℕ
  | Ev.start i => Option.some i
  | Ev.barrier => Option.none

/-- The pages started by a trace, in order. -/
def startsOf (l : List Ev) : List ℕ :=
  l.filterMap startEvent?

/-- Whether, starting from `c` already-running threads, the number of
threads in flight (started since the last full join) never exceeds 20. -/
def inflight_ok : ℕ → List Ev → Bool
  | _, [] => true
  | c, Ev.start _ :: rest => decide (c + 1 ≤ 20) && inflight_ok (c + 1) rest
  | _, Ev.barrier :: rest => inflight_ok 0 rest

/-- The number of threads in flight after a trace, starting from `c`. -/
def final_count : ℕ → List Ev → ℕ
  | c, [] => c
  | c, Ev.start _ :: rest => final_count (c + 1) rest
  | _, Ev.barrier :: rest => final_count 0 rest

/-- The loop trace starts exactly the pages it is given, in order. -/
theorem startsOf_api_loop : ∀ l : List ℕ, startsOf (api_loop l) = l := by
  intro l
  induction l with
  | nil => rfl
  | cons i rest ih =>
      by_cases h : i % 20 = 0
      · show startsOf (Ev.start i :: ((if i % 20 = 0 then [Ev.barrier] else []) ++
          api_loop rest)) = i :: rest
        rw [if_pos h]
        show i :: startsOf (api_loop rest) = i :: rest
        rw [ih]
      · show startsOf (Ev.start i :: ((if i % 20 = 0 then [Ev.barrier] else []) ++
          api_loop rest)) = i :: rest
        rw [if_neg h]
        show i :: startsOf (api_loop rest) = i :: rest
        rw [ih]

/-- Bound check splits over concatenation. -/
theorem inflight_ok_append : ∀ (a b : List Ev) (c : ℕ),
    inflight_ok c (a ++ b) =
      (inflight_ok c a && inflight_ok (final_count c a) b) := by
  intro a
  induction a with
  | nil => intro b c; rfl
  | cons e rest ih =>
      intro b c
      cases e with
      | start i =>
          show (decide (c + 1 ≤ 20) && inflight_ok (c + 1) (rest ++ b)) =
            ((decide (c + 1 ≤ 20) && inflight_ok (c + 1) rest) &&
              inflight_ok (final_count (c + 1) rest) b)
          rw [ih, Bool.and_assoc]
      | barrier =>
          show inflight_ok 0 (rest ++ b) =
            (inflight_ok 0 rest && inflight_ok (final_count 0 rest) b)
          exact ih b 0

/-- Invariant of the loop from page `i + 1` on, with `i % 20` threads in
flight: the bound 20 is respected and `(i + m) % 20` threads remain. -/
theorem api_loop_invariant : ∀ (m i : ℕ),
    inflight_ok (i % 20) (api_loop (List.range' (i + 1) m)) = true ∧
    final_count (i % 20) (api_loop (List.range' (i + 1) m)) = (i + m) % 20 := by
  intro m
  induction m with
  | zero => intro i; exact ⟨rfl, rfl⟩
  | succ m ih =>
      intro i
      rw [List.range'_succ]
      show inflight_ok (i % 20) (api_loop ((i + 1) :: List.range' (i + 1 + 1) m)) =
          true ∧
        final_count (i % 20) (api_loop ((i + 1) :: List.range' (i + 1 + 1) m)) =
          (i + (m + 1)) % 20
      have hI := ih (i + 1)
      have hstep0 : api_loop ((i + 1) :: List.range' (i + 1 + 1) m) =
          Ev.start (i + 1) :: ((if (i + 1) % 20 = 0 then [Ev.barrier] else []) ++
            api_loop (List.range' (i + 1 + 1) m)) := rfl
      by_cases h : (i + 1) % 20 = 0
      · rw [h] at hI
        rw [hstep0, if_pos h, List.singleton_append]
        constructor
        · show (decide (i % 20 + 1 ≤ 20) &&
            inflight_ok 0 (api_loop (List.range' (i + 1 + 1) m))) = true
          rw [Bool.and_eq_true, decide_eq_true_eq]
          exact ⟨by omega, hI.1⟩
        · show final_count 0 (api_loop (List.range' (i + 1 + 1) m)) = _
          rw [hI.2]
          omega
      · have hm : (i + 1) % 20 = i % 20 + 1 := by omega
        rw [hm] at hI
        rw [hstep0, if_neg h, List.nil_append]
        constructor
        · show (decide (i % 20 + 1 ≤ 20) &&
            inflight_ok (i % 20 + 1) (api_loop (List.range' (i + 1 + 1) m))) = true
          rw [Bool.and_eq_true, decide_eq_true_eq]
          exact ⟨by omega, hI.1⟩
        · show final_count (i % 20 + 1) (api_loop (List.range' (i + 1 + 1) m)) = _
          rw [hI.2]
          omega

/-- In the loop trace (with its trailing join), every start of a page
`i` with `i % 20 = 0` is immediately followed by a full join. -/
theorem api_loop_barrier_after_multiple : ∀ (l : List ℕ) (i : ℕ)
    (a b : List Ev),
    api_loop l ++ [Ev.barrier] = a ++ Ev.start i :: b → i % 20 = 0 →
    b.head? = Option.some Ev.barrier := by
  intro l
  induction l with
  | nil =>
      intro i a b h _
      cases a with
      | nil => simp [api_loop] at h
      | cons x a' => simp [api_loop] at h
  | cons j rest ih =>
      intro i a b h hi
      have hj : api_loop (j :: rest) ++ [Ev.barrier] =
          Ev.start j :: ((if j % 20 = 0 then [Ev.barrier] else []) ++
            (api_loop rest ++ [Ev.barrier])) := by
        show (Ev.start j :: ((if j % 20 = 0 then [Ev.barrier] else []) ++
          api_loop rest)) ++ [Ev.barrier] = _
        rw [List.cons_append, List.append_assoc]
      rw [hj] at h
      cases a with
      | nil =>
          simp only [List.nil_append, List.cons.injEq] at h
          obtain ⟨hji, hb⟩ := h
          cases hji
          rw [← hb, if_pos hi]
          rfl
      | cons x a' =>
          simp only [List.cons_append, List.cons.injEq] at h
          obtain ⟨_, htail⟩ := h
          by_cases hj20 : j % 20 = 0
          · rw [if_pos hj20, List.singleton_append] at htail
            cases a' with
            | nil => simp at htail
            | cons y a'' =>
                simp only [List.cons_append, List.cons.injEq] at htail
                exact ih i a'' b htail.2 hi
          · rw [if_neg hj20, List.nil_append] at htail
            exact ih i a' b htail hi

/-- C8: the loop starts exactly pages `1..N` in order; the number of
threads in flight (started since the last full join) never exceeds 20;
and after every 20th start the main thread joins all running threads
before starting the next page. -/
theorem handle_api_calls_batching (pages_amount : ℕ) :
    startsOf (handle_api_calls pages_amount) = List.range' 1 pages_amount ∧
    inflight_ok 0 (handle_api_calls pages_amount) = true ∧
    ∀ (i : ℕ) (a b : List Ev),
      handle_api_calls pages_amount = a ++ Ev.start i :: b → i % 20 = 0 →
      b.head? = Option.some Ev.barrier := by
  refine ⟨?_, ?_, ?_⟩
  · show startsOf (api_loop (List.range' 1 pages_amount) ++ [Ev.barrier]) = _
    rw [startsOf, List.filterMap_append]
    have h2 : List.filterMap startEvent? [Ev.barrier] = [] := rfl
    rw [h2, List.append_nil]
    exact startsOf_api_loop _
  · rw [handle_api_calls, inflight_ok_append]
    have h1 := api_loop_invariant pages_amount 0
    simp only [Nat.zero_mod, Nat.zero_add] at h1
    rw [h1.1]
    rfl
  · intro i a b h hi
    exact api_loop_barrier_after_multiple (List.range' 1 pages_amount) i a b h hi

/-- C8 witness: on a 45-page run, page 20 is a multiple of 20, and the
event right after its start is the full join of the first batch. -/
theorem handle_api_calls_batching_witness :
    ((handle_api_calls 45).drop 20).head? = Option.some Ev.barrier := by
  have h := (handle_api_calls_batching 45).2.2 20
    ((handle_api_calls 45).take 19) ((handle_api_calls 45).drop 20)
  refine h ?_ (by decide)
  decide

end Xivapi
